import Mathlib

/-!
# Verification of the `rdme` prune reconciliation engine and doc sync

A shallow embedding of the prune reconciliation engine of the `rdme`
command-line tool (remote tree fetching, diffing against local slugs,
confirmation gating, deletion ordering and reporting) together with the
`pushDoc` synchronisation routine, and proofs of the behavioural
properties stated in the design document.
-/

/-- A remote document node: a slug together with an ordered sequence of
child documents (nesting depth is unbounded).  Mirrors the `Document`
objects returned by `GET /categories/\x7bslug\x7d/docs`. -/
inductive Document : Type where
  | mk (slug : String) (children : List Document)
deriving Repr

/-- The slug of a document. -/
def Document.slug : Document → String
  | .mk s _ => s

/-- The ordered children of a document. -/
def Document.children : Document → List Document
  | .mk _ c => c

/-- A remote category: slug, kind (`guide`, `reference`, ...) and its
ordered sequence of top-level documents. -/
structure Category where
  slug : String
  kind : String
  docs : List Document
deriving Repr

/-- The remote hierarchy: an ordered sequence of categories. -/
abbrev RemoteTree : Type := List Category

/-- A remote node flagged absent from the local identifier set:
slug, depth and parent slug (`none` for a top-level document). -/
structure PruneCandidate where
  slug : String
  depth : Nat
  parentSlug : Option String
deriving Repr, DecidableEq

mutual

/-- Modelled from the spec: postorder traversal of a single document
subtree (the `flatten` step of the missing `getDocs` helper) — every
child subtree, left to right, then the document itself. -/
def postorderDoc : Document → List String
  | .mk s cs => postorderDocs cs ++ [s]

/-- Modelled from the spec: postorder traversal of an ordered sequence
of sibling documents. -/
def postorderDocs : List Document → List String
  | [] => []
  | d :: ds => postorderDoc d ++ postorderDocs ds

end

/-- Modelled from the spec: postorder traversal of the whole remote
tree, category by category in order. -/
def postorderTree (t : RemoteTree) : List String :=
  (t.map fun c => postorderDocs c.docs).flatten

mutual

/-- Modelled from the spec: the Diff Engine on one document subtree
(the missing `docs prune` diff step).  Children are evaluated first
(postorder); the node itself is appended as a `PruneCandidate` exactly
when its slug is absent from the local identifier set. -/
def collectDoc (L : List String) (depth : Nat) (parent : Option String) :
    Document → List PruneCandidate
  | .mk s cs =>
      collectDocs L (depth + 1) (some s) cs ++
        (if L.contains s then [] else [⟨s, depth, parent⟩])

/-- Modelled from the spec: the Diff Engine on sibling documents, left
to right. -/
def collectDocs (L : List String) (depth : Nat) (parent : Option String) :
    List Document → List PruneCandidate
  | [] => []
  | d :: ds => collectDoc L depth parent d ++ collectDocs L depth parent ds

end

/-- Modelled from the spec: the ordered sequence of prune candidates for
a remote tree and a local identifier set. -/
def pruneCandidates (t : RemoteTree) (L : List String) : List PruneCandidate :=
  (t.map fun c => collectDocs L 0 none c.docs).flatten

/-- The slugs of the prune candidates, in order. -/
def candidateSlugs (t : RemoteTree) (L : List String) : List String :=
  (pruneCandidates t L).map PruneCandidate.slug

/-- A slug is stale when it is absent from the local identifier set. -/
def stale (L : List String) (s : String) : Bool := !L.contains s

mutual

theorem collectDoc_slugs (L : List String) (depth : Nat) (parent : Option String) :
    ∀ d : Document, (collectDoc L depth parent d).map PruneCandidate.slug =
      (postorderDoc d).filter (stale L)
  | .mk s cs => by
    simp only [collectDoc, postorderDoc, List.map_append, List.filter_append,
      collectDocs_slugs L (depth + 1) (some s) cs]
    by_cases hm : s ∈ L <;> simp [stale, List.contains, hm]

theorem collectDocs_slugs (L : List String) (depth : Nat) (parent : Option String) :
    ∀ ds : List Document, (collectDocs L depth parent ds).map PruneCandidate.slug =
      (postorderDocs ds).filter (stale L)
  | [] => by simp [collectDocs, postorderDocs]
  | d :: ds => by
    simp only [collectDocs, postorderDocs, List.map_append, List.filter_append,
      collectDoc_slugs L depth parent d, collectDocs_slugs L depth parent ds]

end

theorem candidateSlugs_eq_filter (t : RemoteTree) (L : List String) :
    candidateSlugs t L = (postorderTree t).filter (stale L) := by
  unfold candidateSlugs pruneCandidates postorderTree
  induction t with
  | nil => simp
  | cons c cs ih =>
    simp only [List.map_cons, List.flatten_cons, List.map_append, List.filter_append,
      collectDocs_slugs, ih]

/-- `OccursDoc d root`: `d` is a node of the subtree rooted at `root`
(possibly `root` itself). -/
inductive OccursDoc : Document → Document → Prop where
  | refl (d : Document) : OccursDoc d d
  | step {d c : Document} {s : String} {cs : List Document} :
      c ∈ cs → OccursDoc d c → OccursDoc d (.mk s cs)

/-- `Occurs d t`: document `d` is a node of the remote tree `t`, at any
nesting depth. -/
def Occurs (d : Document) (t : RemoteTree) : Prop :=
  ∃ c ∈ t, ∃ top ∈ c.docs, OccursDoc d top

theorem postorderDocs_decomp_of_mem {d : Document} {ds : List Document}
    (h : d ∈ ds) : ∃ u v, postorderDocs ds = u ++ postorderDoc d ++ v := by
  induction ds with
  | nil => cases h
  | cons e es ih =>
    rcases List.mem_cons.mp h with rfl | h
    · exact ⟨[], postorderDocs es, by simp [postorderDocs]⟩
    · obtain ⟨u, v, huv⟩ := ih h
      exact ⟨postorderDoc e ++ u, v, by simp [postorderDocs, huv]⟩

theorem postorderDoc_decomp_of_occurs {d root : Document}
    (h : OccursDoc d root) : ∃ u v, postorderDoc root = u ++ postorderDoc d ++ v := by
  induction h with
  | refl => exact ⟨[], [], by simp⟩
  | @step c s cs hmem _ ih =>
    obtain ⟨u, v, huv⟩ := ih
    obtain ⟨a, b, hab⟩ := postorderDocs_decomp_of_mem hmem
    exact ⟨a ++ u, v ++ b ++ [s], by simp [postorderDoc, hab, huv]⟩

theorem postorderTree_decomp_of_occurs {d : Document} {t : RemoteTree}
    (h : Occurs d t) : ∃ u v, postorderTree t = u ++ postorderDoc d ++ v := by
  obtain ⟨c, hc, top, htop, hocc⟩ := h
  obtain ⟨u₁, v₁, h₁⟩ := postorderDoc_decomp_of_occurs hocc
  obtain ⟨u₂, v₂, h₂⟩ := postorderDocs_decomp_of_mem htop
  have hcat : ∃ u v, postorderTree t = u ++ postorderDocs c.docs ++ v := by
    clear h₁ h₂
    induction t with
    | nil => cases hc
    | cons e es ih =>
      rcases List.mem_cons.mp hc with rfl | hc2
      · exact ⟨[], (es.map fun x => postorderDocs x.docs).flatten,
          by simp [postorderTree]⟩
      · obtain ⟨u, v, huv⟩ := ih hc2
        refine ⟨postorderDocs e.docs ++ u, v, ?_⟩
        have hstep : postorderTree (e :: es) =
            postorderDocs e.docs ++ postorderTree es := by
          simp [postorderTree]
        rw [hstep, huv]
        simp
  obtain ⟨u₃, v₃, h₃⟩ := hcat
  exact ⟨u₃ ++ u₂ ++ u₁, v₁ ++ v₂ ++ v₃, by simp [h₃, h₂, h₁]⟩

/-- A network request or terminal interaction performed during a prune
run, in the order it happens. -/
inductive Event : Type where
  | getVersion
  | getCategoriesPage (perPage page : Nat)
  | getCategoryDocs (slug : String)
  | prompt
  | deleteDoc (slug : String)
deriving Repr, DecidableEq

/-- Modelled from the spec: the pagination loop of the missing
`getCategories` helper.  `fetched` categories have been retrieved so
far; while the server-reported total (the `x-total-count` header, here
the length of the remote category list) is not exhausted, request the
next page of 20 (`GET /categories?perPage=20&page=N`, pages numbered
from 1) and append the response slice in order. -/
def fetchCategoriesAux (remote : RemoteTree) (fetched : Nat) :
    List Category × List Event :=
  if remote.length ≤ fetched then ([], [])
  else
    let rest := fetchCategoriesAux remote (fetched + 20)
    ((remote.drop fetched).take 20 ++ rest.1,
      Event.getCategoriesPage 20 (fetched / 20 + 1) :: rest.2)
termination_by remote.length - fetched
decreasing_by simp_wf; omega

/-- Modelled from the spec: the missing `getCategories` helper — drains
all pages starting from page 1 and returns the categories in response
order together with the requests made. -/
def getCategoriesRun (remote : RemoteTree) : List Category × List Event :=
  fetchCategoriesAux remote 0

/-- Number of pages of size 20 needed for `n` categories. -/
def pageCount (n : Nat) : Nat := (n + 19) / 20

theorem fetchCategoriesAux_spec (remote : RemoteTree) (fetched : Nat) :
    fetchCategoriesAux remote fetched =
      (remote.drop fetched,
       (List.range (pageCount (remote.length - fetched))).map
         fun k => Event.getCategoriesPage 20 (fetched / 20 + k + 1)) := by
  induction fetched using fetchCategoriesAux.induct remote with
  | case1 fetched h =>
    rw [fetchCategoriesAux, if_pos h, List.drop_eq_nil_of_le h]
    have h0 : remote.length - fetched = 0 := by omega
    simp [h0, pageCount]
  | case2 fetched h ih =>
    rw [fetchCategoriesAux, if_neg h]
    have hlt : fetched < remote.length := by omega
    have hdrop : (remote.drop fetched).take 20 ++ remote.drop (fetched + 20) =
        remote.drop fetched := by
      rw [← List.drop_drop]
      exact List.take_append_drop 20 (remote.drop fetched)
    have hpc : pageCount (remote.length - fetched) =
        pageCount (remote.length - (fetched + 20)) + 1 := by
      unfold pageCount; omega
    have hdiv : (fetched + 20) / 20 = fetched / 20 + 1 :=
      Nat.add_div_right fetched (by norm_num)
    simp only [ih, hpc, List.range_succ_eq_map, List.map_cons, List.map_map]
    refine Prod.ext (by simp [hdrop]) ?_
    refine congrArg₂ List.cons (by norm_num) ?_
    apply List.map_congr_left
    intro k _
    simp only [Function.comp_apply, hdiv]
    congr 1
    omega

/-- The missing `getCategories` helper returns the remote categories
unchanged and in order, requesting exactly the pages
`1, 2, ..., ⌈total/20⌉` with a fixed page size of 20. -/
theorem getCategoriesRun_spec (remote : RemoteTree) :
    getCategoriesRun remote =
      (remote,
       (List.range (pageCount remote.length)).map
         fun k => Event.getCategoriesPage 20 (k + 1)) := by
  rw [getCategoriesRun, fetchCategoriesAux_spec]
  simp

/-- The report line for a successful live deletion of one slug. -/
def successLine (s : String) : String :=
  "🗑️  successfully deleted `" ++ s ++ "`."

/-- The report line for a hypothetical dry-run deletion of one slug. -/
def dryRunLine (s : String) : String :=
  "🎭 dry run! This will delete `" ++ s ++ "`."

/-- The inputs of one prune invocation: whether the folder argument
exists and is a directory, the slugs derived from the local files, the
remote hierarchy the server would return, the `--confirm` and `--dryRun`
flags, and the answer the user would give to the confirmation prompt. -/
structure RunInput where
  folderExists : Bool
  localSlugs : List String
  remote : RemoteTree
  confirmFlag : Bool
  dryRun : Bool
  promptAnswer : Bool

/-- Modelled from the spec: the missing `docs prune` command run,
returning the ordered trace of performed requests and interactions
together with the terminal result (report string or fatal error).  The
stage order — version lookup, local folder scan, confirmation gate
(skipped under `--confirm`), category pagination, per-category document
fetch, diff, then per-candidate deletion or dry-run reporting — is the
order pinned by the repository's own `docs:prune` tests. -/
def pruneRun (i : RunInput) : List Event × Except String String :=
  if i.folderExists = false then
    ([Event.getVersion], Except.error "ENOENT: no such file or directory, scandir")
  else
    let promptEvs : List Event := if i.confirmFlag then [] else [Event.prompt]
    if !i.confirmFlag && !i.promptAnswer then
      (Event.getVersion :: promptEvs, Except.error "Aborting, no changes were made.")
    else
      let fetchEvs : List Event :=
        (getCategoriesRun i.remote).2 ++ i.remote.map fun c => Event.getCategoryDocs c.slug
      let cands := pruneCandidates i.remote i.localSlugs
      if i.dryRun then
        (Event.getVersion :: (promptEvs ++ fetchEvs),
          Except.ok (String.intercalate "\n" (cands.map fun c => dryRunLine c.slug)))
      else
        (Event.getVersion ::
            (promptEvs ++ fetchEvs ++ cands.map fun c => Event.deleteDoc c.slug),
          Except.ok (String.intercalate "\n" (cands.map fun c => successLine c.slug)))

/-- The slugs of the DELETE calls in a trace, in order. -/
def deletedSlugs (evs : List Event) : List String :=
  evs.filterMap fun e =>
    match e with
    | .deleteDoc s => some s
    | _ => none

/-- Whether an event is a remote-tree fetch (category page or
per-category document listing). -/
def isFetchEvent : Event → Bool
  | .getCategoriesPage _ _ => true
  | .getCategoryDocs _ => true
  | _ => false

theorem deletedSlugs_nil : deletedSlugs [] = [] := rfl

theorem deletedSlugs_getVersion_cons (evs : List Event) :
    deletedSlugs (Event.getVersion :: evs) = deletedSlugs evs := rfl

theorem deletedSlugs_prompt_cons (evs : List Event) :
    deletedSlugs (Event.prompt :: evs) = deletedSlugs evs := rfl

theorem deletedSlugs_catPages (t : RemoteTree) :
    deletedSlugs (getCategoriesRun t).2 = [] := by
  rw [getCategoriesRun_spec]
  simp only [deletedSlugs, List.filterMap_map]
  exact List.filterMap_eq_nil_iff.mpr (by simp [Function.comp])

theorem deletedSlugs_catDocs (t : RemoteTree) :
    deletedSlugs (t.map fun c => Event.getCategoryDocs c.slug) = [] := by
  simp only [deletedSlugs, List.filterMap_map]
  exact List.filterMap_eq_nil_iff.mpr (by simp [Function.comp])

/-- The remote tree of the repository's `docs:prune` tests: one `guide`
category whose first document has one nested child. -/
def exampleTree : RemoteTree :=
  [⟨"category1", "guide",
    [Document.mk "this-doc-should-be-missing-in-folder"
        [Document.mk "this-child-is-also-missing" []],
      Document.mk "some-doc" []]⟩]

/-- The local identifiers of the repository's `docs:prune` tests. -/
def exampleLocal : List String := ["some-doc"]

/-- The document of `exampleTree` that has a nested child. -/
def exampleParent : Document :=
  Document.mk "this-doc-should-be-missing-in-folder"
    [Document.mk "this-child-is-also-missing" []]

theorem example_candidates :
    candidateSlugs exampleTree exampleLocal =
      ["this-child-is-also-missing", "this-doc-should-be-missing-in-folder"] := by
  decide

theorem example_live_report :
    (pruneRun ⟨true, exampleLocal, exampleTree, false, false, true⟩).2 =
      Except.ok
        ("🗑️  successfully deleted `this-child-is-also-missing`.\n🗑️  successfully deleted `this-doc-should-be-missing-in-folder`.") := by
  rfl

theorem deletedSlugs_append (a b : List Event) :
    deletedSlugs (a ++ b) = deletedSlugs a ++ deletedSlugs b :=
  List.filterMap_append a b _

theorem deletedSlugs_deletes (cs : List PruneCandidate) :
    deletedSlugs (cs.map fun c => Event.deleteDoc c.slug) =
      cs.map PruneCandidate.slug := by
  induction cs with
  | nil => rfl
  | cons c cs ih =>
    simp only [List.map_cons, deletedSlugs, List.filterMap_cons] at ih ⊢
    rw [ih]

/-- **C1.**  For every remote tree and local identifier set, a remote
document (at any nesting depth) appears among the prune candidates iff
it is a node of the tree whose slug is not a member of the local
identifier set; the condition mentions only the node's own slug, so the
presence or absence of its parent or of any of its children never
changes whether the node itself is classified as stale. -/
theorem prune_candidate_iff_absent (t : RemoteTree) (L : List String) (s : String) :
    s ∈ candidateSlugs t L ↔ s ∈ postorderTree t ∧ s ∉ L := by
  rw [candidateSlugs_eq_filter]
  simp [stale, List.contains, List.mem_filter]

/-- **C2.**  For every remote tree and local identifier set, every node
of the tree contributes to the ordered candidate sequence a contiguous
block in which the stale descendants of the node all appear strictly
before the node's own entry (postorder); and in a live run the DELETE
calls are issued exactly in that candidate order. -/
theorem prune_descendants_before_node (t : RemoteTree) (L : List String)
    (d : Document) (conf ans : Bool) (h : Occurs d t)
    (hmode : (conf || ans) = true) :
    (∃ u v, candidateSlugs t L =
        u ++ (postorderDocs d.children).filter (stale L) ++
          (if stale L d.slug then [d.slug] else []) ++ v) ∧
    deletedSlugs (pruneRun ⟨true, L, t, conf, false, ans⟩).1 =
      candidateSlugs t L := by
  constructor
  · obtain ⟨u, v, huv⟩ := postorderTree_decomp_of_occurs h
    refine ⟨u.filter (stale L), v.filter (stale L), ?_⟩
    rw [candidateSlugs_eq_filter, huv]
    obtain ⟨s, cs⟩ := d
    simp only [postorderDoc, Document.children, Document.slug, List.filter_append]
    cases hst : stale L s <;>
      simp [List.filter_cons, hst, List.append_assoc]
  · cases conf <;> cases ans <;> simp_all <;>
      simp [pruneRun, deletedSlugs_append, deletedSlugs_getVersion_cons,
        deletedSlugs_prompt_cons, deletedSlugs_catPages, deletedSlugs_catDocs,
        deletedSlugs_deletes, deletedSlugs_nil, candidateSlugs]

theorem prune_descendants_before_node_witness :
    (∃ u v, candidateSlugs exampleTree exampleLocal =
        u ++ (postorderDocs exampleParent.children).filter (stale exampleLocal) ++
          (if stale exampleLocal exampleParent.slug then [exampleParent.slug] else []) ++ v) ∧
    deletedSlugs (pruneRun ⟨true, exampleLocal, exampleTree, true, false, true⟩).1 =
      candidateSlugs exampleTree exampleLocal :=
  prune_descendants_before_node exampleTree exampleLocal exampleParent true true
    ⟨⟨"category1", "guide", [exampleParent, Document.mk "some-doc" []]⟩,
      by simp [exampleTree, exampleParent], exampleParent,
      by simp, OccursDoc.refl _⟩
    rfl

/-- **C3 counterexample.**  A dry run on the test scenario still
presents the interactive confirmation prompt: dry-run mode does not
proceed directly to reporting without a prompt. -/
theorem dryRun_prompts_counterexample :
    Event.prompt ∈ (pruneRun ⟨true, exampleLocal, exampleTree, false, true, true⟩).1 := by
  decide

/-- **C3 amended.**  In dry-run mode no DELETE call is ever issued, and
when the run proceeds past the gate the result is the report of
hypothetical deletions; however the confirmation prompt is still
presented unless the auto-confirm flag is set. -/
theorem dryRun_no_delete (i : RunInput) (h : i.dryRun = true) :
    deletedSlugs (pruneRun i).1 = [] ∧
    (i.folderExists = true → (i.confirmFlag || i.promptAnswer) = true →
      (pruneRun i).2 = Except.ok (String.intercalate "\n"
        ((pruneCandidates i.remote i.localSlugs).map fun c => dryRunLine c.slug))) := by
  obtain ⟨fe, L, t, conf, dr, ans⟩ := i
  cases h
  cases fe <;> cases conf <;> cases ans <;>
    simp [pruneRun, deletedSlugs_append, deletedSlugs_getVersion_cons,
      deletedSlugs_prompt_cons, deletedSlugs_catPages, deletedSlugs_catDocs,
      deletedSlugs_nil]

theorem dryRun_no_delete_witness :
    deletedSlugs (pruneRun ⟨true, exampleLocal, exampleTree, false, true, true⟩).1 = [] ∧
    (pruneRun ⟨true, exampleLocal, exampleTree, false, true, true⟩).2 =
      Except.ok (String.intercalate "\n"
        ((pruneCandidates exampleTree exampleLocal).map fun c => dryRunLine c.slug)) :=
  ⟨(dryRun_no_delete ⟨true, exampleLocal, exampleTree, false, true, true⟩ rfl).1,
    (dryRun_no_delete ⟨true, exampleLocal, exampleTree, false, true, true⟩ rfl).2 rfl rfl⟩

/-- **C4 counterexample.**  With a missing folder the version lookup is
still performed: the trace of the failing run contains a network
request, refuting the claim that the validation error precedes any
network access at all. -/
theorem missing_folder_counterexample :
    Event.getVersion ∈ (pruneRun ⟨false, [], [], false, false, false⟩).1 ∧
    (pruneRun ⟨false, [], [], false, false, false⟩).2 =
      Except.error "ENOENT: no such file or directory, scandir" :=
  ⟨by decide, rfl⟩

/-- **C4 amended.**  A missing or non-directory folder is a fatal
validation error raised before the category listing, the document
fetches, the prompt and any deletion — but after the version lookup,
which is the only event in the trace of such a run. -/
theorem missing_folder_fatal (i : RunInput) (h : i.folderExists = false) :
    pruneRun i = ([Event.getVersion],
      Except.error "ENOENT: no such file or directory, scandir") := by
  simp [pruneRun, h]

theorem missing_folder_fatal_witness :
    pruneRun ⟨false, [], [], false, false, false⟩ = ([Event.getVersion],
      Except.error "ENOENT: no such file or directory, scandir") :=
  missing_folder_fatal ⟨false, [], [], false, false, false⟩ rfl

/-- **C5 counterexample.**  In an interactive aborted run the
confirmation prompt is presented although no category or document fetch
ever happens: the gate is not invoked after the Remote Tree Fetcher and
Diff Engine, and the remote tree fetch does not precede the prompt. -/
theorem gate_before_fetch_counterexample :
    Event.prompt ∈ (pruneRun ⟨true, exampleLocal, exampleTree, false, false, false⟩).1 ∧
    (pruneRun ⟨true, exampleLocal, exampleTree, false, false, false⟩).1.all
      (fun e => !isFetchEvent e) = true := by
  decide

/-- **C5 amended.**  In every interactive run on an existing folder the
trace begins with the version lookup immediately followed by the
confirmation prompt: the gate runs after the version lookup and the
local folder scan but before the remote tree fetch, the diff and any
DELETE call, and its prompt is a generic confirmation not derived from
the candidate list. -/
theorem gate_precedes_fetch (i : RunInput) (h1 : i.folderExists = true)
    (h2 : i.confirmFlag = false) :
    (pruneRun i).1.take 2 = [Event.getVersion, Event.prompt] := by
  obtain ⟨fe, L, t, conf, dr, ans⟩ := i
  cases h1
  cases h2
  cases ans <;> cases dr <;> simp [pruneRun]

theorem gate_precedes_fetch_witness :
    (pruneRun ⟨true, exampleLocal, exampleTree, false, false, false⟩).1.take 2 =
      [Event.getVersion, Event.prompt] :=
  gate_precedes_fetch ⟨true, exampleLocal, exampleTree, false, false, false⟩ rfl rfl

/-- **C6.**  For every non-empty candidate set in interactive mode, a
negative response to the confirmation prompt yields zero DELETE calls
and terminates the operation with the cancellation error
`Aborting, no changes were made.`. -/
theorem decline_zero_deletions (i : RunInput) (h1 : i.folderExists = true)
    (h2 : i.confirmFlag = false) (h3 : i.promptAnswer = false)
    (h4 : pruneCandidates i.remote i.localSlugs ≠ []) :
    (pruneRun i).2 = Except.error "Aborting, no changes were made." ∧
    deletedSlugs (pruneRun i).1 = [] := by
  obtain ⟨fe, L, t, conf, dr, ans⟩ := i
  cases h1
  cases h2
  cases h3
  simp [pruneRun, deletedSlugs_prompt_cons, deletedSlugs_getVersion_cons,
    deletedSlugs_nil]

theorem decline_zero_deletions_witness :
    pruneCandidates exampleTree exampleLocal ≠ [] ∧
    ((pruneRun ⟨true, exampleLocal, exampleTree, false, false, false⟩).2 =
      Except.error "Aborting, no changes were made." ∧
    deletedSlugs (pruneRun ⟨true, exampleLocal, exampleTree, false, false, false⟩).1 = []) :=
  ⟨by decide,
    decline_zero_deletions ⟨true, exampleLocal, exampleTree, false, false, false⟩
      rfl rfl rfl (by decide)⟩

/-- **C7.**  The Remote Tree Fetcher retrieves categories in fixed-size
pages of 20 via `GET /categories?perPage=20&page=N`, starting at page 1
and increasing, until the server-reported total count is exhausted,
appending categories in response order; for an unchanged remote state
the resulting category ordering is the same on every run. -/
theorem categories_pagination (remote : RemoteTree) :
    (getCategoriesRun remote).1 = remote ∧
    (getCategoriesRun remote).2 = (List.range (pageCount remote.length)).map
      (fun k => Event.getCategoriesPage 20 (k + 1)) := by
  rw [getCategoriesRun_spec]
  exact ⟨rfl, rfl⟩

/-- **C8.**  For every fully successful live run, the final result
string is exactly the newline-joined sequence of the per-candidate
success report lines, one line per deleted slug, in processing order —
and the DELETE calls are issued in the same order. -/
theorem live_run_joined_report (i : RunInput) (h1 : i.folderExists = true)
    (h2 : i.dryRun = false) (h3 : (i.confirmFlag || i.promptAnswer) = true) :
    (pruneRun i).2 = Except.ok (String.intercalate "\n"
      ((pruneCandidates i.remote i.localSlugs).map fun c => successLine c.slug)) ∧
    deletedSlugs (pruneRun i).1 =
      (pruneCandidates i.remote i.localSlugs).map PruneCandidate.slug := by
  obtain ⟨fe, L, t, conf, dr, ans⟩ := i
  cases h1
  cases h2
  cases conf <;> cases ans <;>
    simp_all [pruneRun, deletedSlugs_append, deletedSlugs_getVersion_cons,
      deletedSlugs_prompt_cons, deletedSlugs_catPages, deletedSlugs_catDocs,
      deletedSlugs_deletes, deletedSlugs_nil]

theorem live_run_joined_report_witness :
    (pruneRun ⟨true, exampleLocal, exampleTree, false, false, true⟩).2 =
      Except.ok (String.intercalate "\n"
        ((pruneCandidates exampleTree exampleLocal).map fun c => successLine c.slug)) ∧
    deletedSlugs (pruneRun ⟨true, exampleLocal, exampleTree, false, false, true⟩).1 =
      (pruneCandidates exampleTree exampleLocal).map PruneCandidate.slug :=
  live_run_joined_report ⟨true, exampleLocal, exampleTree, false, false, true⟩ rfl rfl rfl

/-! ## The `pushDoc` synchronisation routine (from `lib/syncDocsPath`) -/

/-- The result of `readDoc` on one local file: its body content, parsed
front matter attributes, content hash and slug. -/
structure ReadDocResult where
  content : String
  data : List (String × String)
  hash : String
  slug : String

/-- One HTTP request issued by `pushDoc`, with its route. -/
inductive PushEvent : Type where
  | get (route : String)
  | post (route : String)
  | put (route : String)
deriving Repr, DecidableEq

/-- The remote document state relevant to `pushDoc`: the hash recorded
at the last update. -/
structure RemoteDoc where
  lastUpdatedHash : String

/-- What `GET /api/v1/{type}/{slug}` answers for the file's slug:
a 200 with the existing document, a 404, or another failure status. -/
inductive GetDocResult : Type where
  | found (doc : RemoteDoc)
  | notFound
  | apiError (msg : String)

/-- Shallow embedding of `pushDoc` (`lib/syncDocsPath`): reads one file
and creates or updates the corresponding remote doc.  Returns the
ordered requests issued and the result message (or error).  When the
front matter has no attributes the file is skipped before any request;
otherwise the existing doc is looked up and `createDoc`/`updateDoc`
decide between dry-run messages, a POST, a PUT, or the unchanged-hash
short-circuit. -/
def pushDoc (typ : String) (dryRun : Bool) (filePath : String)
    (d : ReadDocResult) (remote : GetDocResult) :
    List PushEvent × Except String String :=
  if d.data.length = 0 then
    ([], Except.ok ("⏭️  no front matter attributes found for " ++ filePath ++ ", skipping"))
  else
    let getEv := PushEvent.get ("/api/v1/" ++ typ ++ "/" ++ d.slug)
    match remote with
    | .apiError msg =>
        ([getEv], Except.error ("Error uploading " ++ filePath ++ ":\n\n" ++ msg))
    | .notFound =>
        if dryRun then
          ([getEv], Except.ok ("🎭 dry run! This will create \x27" ++ d.slug ++
            "\x27 with contents from " ++ filePath))
        else
          ([getEv, PushEvent.post ("/api/v1/" ++ typ)],
            Except.ok ("🌱 successfully created \x27" ++ d.slug ++
              "\x27 with contents from " ++ filePath))
    | .found existingDoc =>
        if d.hash = existingDoc.lastUpdatedHash then
          ([getEv], Except.ok ((if dryRun then "🎭 dry run! " else "") ++ "`" ++
            d.slug ++ "` " ++ (if dryRun then "will not be" else "was not") ++
            " updated because there were no changes."))
        else if dryRun then
          ([getEv], Except.ok ("🎭 dry run! This will update \x27" ++ d.slug ++
            "\x27 with contents from " ++ filePath))
        else
          ([getEv, PushEvent.put ("/api/v1/" ++ typ ++ "/" ++ d.slug)],
            Except.ok ("✏️ successfully updated \x27" ++ d.slug ++
              "\x27 with contents from " ++ filePath))

/-- **C9.**  For every file whose parsed front matter contains no
attributes, `pushDoc` returns the skipping message for that file and
issues no network request at all — no GET, POST or PUT — so the remote
store is unchanged for that file. -/
theorem pushDoc_skips_without_front_matter (typ : String) (dryRun : Bool)
    (filePath : String) (d : ReadDocResult) (remote : GetDocResult)
    (h : d.data = []) :
    pushDoc typ dryRun filePath d remote =
      ([], Except.ok ("⏭️  no front matter attributes found for " ++
        filePath ++ ", skipping")) := by
  simp [pushDoc, h]

theorem pushDoc_skips_without_front_matter_witness :
    pushDoc "docs" false "docs/a.md" ⟨"body", [], "h1", "a"⟩ GetDocResult.notFound =
      ([], Except.ok ("⏭️  no front matter attributes found for " ++
        "docs/a.md" ++ ", skipping")) :=
  pushDoc_skips_without_front_matter "docs" false "docs/a.md"
    ⟨"body", [], "h1", "a"⟩ GetDocResult.notFound rfl

/-- **C10.**  For every file whose computed content hash equals the
remote document's `lastUpdatedHash`, `pushDoc` issues no PUT request —
its only request is the initial GET — and returns the
`was not updated because there were no changes` message: re-syncing an
unchanged document is a no-op on the remote store. -/
theorem pushDoc_unchanged_no_put (typ : String) (filePath : String)
    (d : ReadDocResult) (existingDoc : RemoteDoc)
    (h0 : d.data ≠ []) (h1 : d.hash = existingDoc.lastUpdatedHash) :
    pushDoc typ false filePath d (GetDocResult.found existingDoc) =
      ([PushEvent.get ("/api/v1/" ++ typ ++ "/" ++ d.slug)],
        Except.ok ("`" ++ d.slug ++ "` was not updated because there were no changes.")) := by
  have hlen : d.data.length ≠ 0 := by simpa using h0
  simp only [pushDoc, hlen, h1, if_pos, if_neg, if_false, ite_false, ite_true,
    Bool.false_eq_true, reduceIte]
  simp only [String.append_assoc]
  rfl

theorem pushDoc_unchanged_no_put_witness :
    pushDoc "docs" false "docs/a.md" ⟨"body", [("title", "A")], "h1", "a"⟩
        (GetDocResult.found ⟨"h1"⟩) =
      ([PushEvent.get ("/api/v1/" ++ "docs" ++ "/" ++ "a")],
        Except.ok ("`" ++ "a" ++ "` was not updated because there were no changes.")) :=
  pushDoc_unchanged_no_put "docs" "docs/a.md" ⟨"body", [("title", "A")], "h1", "a"⟩
    ⟨"h1"⟩ (by simp) rfl
